import Mathlib

/-!
Verification of `src/pupil_src/shared_modules/video_exporter.py`.

The development shallowly embeds the windowed re-encode pipeline
`export_processed_h264` (lines 38-110), the job-creation method
`VideoExporter.add_export_job` (lines 183-215) and the polling method
`VideoExporter.recent_events` (lines 221-229).

Timestamps and percent values are modelled as rationals (`ℚ`); Python's
`int()` conversion is truncation toward zero.  The generator's sequence of
`yield`ed progress events is modelled as the list `events`; the sequence of
presentation timestamps handed to `video_stream.encode` is modelled as the
list `pts` (one entry per encoded frame).  An exception escaping a call is
modelled as `Except.error`.
-/

/-- Truncation of a rational toward zero: the behaviour of Python's `int()`
applied to the value `(frame.timestamp - start_time) / time_base`
(line 87 of the source). -/
def pyTrunc (q : ℚ) : ℤ := if 0 ≤ q then ⌊q⌋ else ⌈q⌉

/-- Fixed encode time base, line 59: `time_base = Fraction(1, 65535)`. -/
def time_base : ℚ := 1 / 65535

/-- Throttling interval for progress events, line 57: `update_rate = 10`. -/
def update_rate : Nat := 10

/-- Percent value of an in-loop progress event, lines 94-98:
`((current_frame_idx - export_from_index) / (export_to_index - export_from_index)) * .9 + .1`,
yielded multiplied by `100.`. -/
def progress_percent (export_from_index export_to_index current_frame_idx : Nat) : ℚ :=
  ((((current_frame_idx : ℚ) - (export_from_index : ℚ))
      / ((export_to_index : ℚ) - (export_from_index : ℚ))) * (9 / 10) + 1 / 10) * 100

/-- Result of the frame loop: the progress events it yields, the pts values of
the frames it encodes, and whether the progress expression of line 94-97 was
ever evaluated with a zero denominator (`export_to_index = export_from_index`),
which in Python would raise `ZeroDivisionError`. -/
structure LoopOut where
  events : List (String × ℚ)
  pts : List ℤ
  div_zero_hit : Bool
deriving DecidableEq

/-- Modelled from the spec: the Frame Source Adapter
(`video_capture.File_Source`, which is not under the repository sources) as
used by the loop of lines 71-99.  After `seek_to_frame(i)` the adapter
delivers frames sequentially at indices `i, i+1, ...`; the frame at index `p`
carries timestamp `timestamps[p]`; `get_frame` raises `EndofVideoError` past
the last valid index; `current_frame_idx` is the index of the most recently
retrieved frame.  With that adapter model, this definition embeds the
`while True` loop of `export_processed_h264` (lines 73-99): `pos` is the
adapter's read position, `start_time` and `next_update_idx` are the loop
variables of the same names. -/
def export_loop (timestamps : List ℚ) (export_from_index export_to_index : Nat)
    (pos : Nat) (start_time : Option ℚ) (next_update_idx : Nat) : LoopOut :=
  if h : pos < timestamps.length then
    -- line 79: `if frame.index > export_to_index: break`
    if export_to_index < pos then ⟨[], [], false⟩
    else
      let frame_timestamp := timestamps.get ⟨pos, h⟩
      -- lines 82-83: `if start_time is None: start_time = frame.timestamp`
      let origin := start_time.getD frame_timestamp
      -- line 93: `if capture.current_frame_idx >= next_update_idx` gates the
      -- progress event and the bump of `next_update_idx` (line 99)
      let rest := export_loop timestamps export_from_index export_to_index (pos + 1)
        (some origin)
        (if next_update_idx ≤ pos then next_update_idx + update_rate else next_update_idx)
      { events := (if next_update_idx ≤ pos then
            [("Converting video", progress_percent export_from_index export_to_index pos)]
          else []) ++ rest.events
        pts := pyTrunc ((frame_timestamp - origin) / time_base) :: rest.pts
        -- the denominator of line 96 is `(export_to_index : ℚ) - export_from_index`,
        -- which vanishes exactly when the two indices are equal
        div_zero_hit :=
          (if next_update_idx ≤ pos ∧ export_to_index = export_from_index
            then true else false) || rest.div_zero_hit }
  else ⟨[], [], false⟩  -- line 76: `except EndofVideoError: break`
termination_by timestamps.length - pos

/-- Observable outcome of one run of the generator `export_processed_h264`. -/
structure ExportOut where
  events : List (String × ℚ)
  pts : List ℤ
  div_zero_hit : Bool
deriving DecidableEq

/-- Embedding of the generator `export_processed_h264` (lines 38-110).
`initialised` is the value of `capture.initialised` (line 47); `timestamps`
is the source timestamp sequence `capture.timestamps`;
`export_from_index`/`export_to_index` are the resolved range of line 52
(the range resolution `pm.exact_window`/`pm.find_closest` lives outside the
sources, so the resolved indices are taken as parameters).  The run yields
the liveness event (line 45), then on initialisation failure the failure
event (line 48); otherwise it seeks to `export_from_index` (line 71), runs
the loop with `next_update_idx = export_from_index + update_rate` (line 72)
and finally yields the completion event at `1. * 100.` (line 110). -/
def export_processed_h264 (initialised : Bool) (timestamps : List ℚ)
    (export_from_index export_to_index : Nat) : ExportOut :=
  if initialised then
    let out := export_loop timestamps export_from_index export_to_index
      export_from_index none (export_from_index + update_rate)
    { events := ("Converting video", 1 / 10)
        :: (out.events ++ [("Converting video completed", 100)])
      pts := out.pts
      div_zero_hit := out.div_zero_hit }
  else
    { events := [("Converting video", 1 / 10), ("Converting scene video failed", 0)]
      pts := []
      div_zero_hit := false }

/-- Definition following the spec's words for the output pts rule: "Compute
the output presentation timestamp as (frame.timestamp − origin) expressed in
units of the encode time base, truncated to an integer tick count", with the
fixed encode time base of 1/65535 second. -/
def spec_output_pts (frame_timestamp origin : ℚ) : ℤ :=
  pyTrunc ((frame_timestamp - origin) / (1 / 65535))

/-- Accepted container extensions, line 201 of the source. -/
def accepted_extensions : List String := [".mp4", ".mkv", ".avi", ".mjpeg"]

/-- Characters strictly after the last dot of a name, or `none` when the name
has no dot. -/
def extAfterLastDot : List Char → Option (List Char)
  | [] => none
  | c :: rest =>
    match extAfterLastDot rest with
    | some e => some e
    | none => if c = '.' then some rest else none

/-- Extension part of `os.path.splitext`: the suffix starting at the last dot,
or the empty string when the name has no dot.  (The model covers the names
this code feeds it — glob results of pattern `input_name + ".*"`, which
always contain a dot inside the basename; `splitext`'s special case for
names consisting only of leading dots is not reachable here.) -/
def splitext_ext (f : String) : String :=
  match extAfterLastDot f.data with
  | some e => String.mk ('.' :: e)
  | none => ""

/-- Model of a `background_helper.Task_Proxy` as `recent_events` observes it:
its name, the events its `fetch()` returns on the current poll, and its
`canceled` flag.  A freshly created task has fetched nothing and is not
canceled. -/
structure TaskModel where
  name : String
  fetched : List (String × ℚ)
  canceled : Bool
deriving DecidableEq

/-- Mutable plugin state touched by `add_export_job`: the filesystem's set of
existing directories, `self.export_tasks` and `self.output`. -/
structure JobState where
  dirs : List String
  export_tasks : List (String × TaskModel)
  output : String
deriving DecidableEq

/-- Embedding of `VideoExporter.add_export_job` (lines 183-215).  `globbed` is
the listing returned by `glob(rec_dir/input_name + ".*")`; `rec_start` is the
value of `get_recording_start_date()` (file input, taken as a parameter).
`os.makedirs(im_dir, exist_ok=True)` is modelled as inserting the directory
when absent and succeeding either way; the list indexing `[...][0]` on the
filtered listing (line 202) raises `IndexError` when no file matches, which
is modelled as `Except.error`.  On success the call returns the new state and
`im_dir` (the code returns `{"export_folder": im_dir}`). -/
def add_export_job (st : JobState) (globbed : List String)
    (export_dir plugin_name rec_start output_name : String) :
    Except String (JobState × String) :=
  let im_dir := export_dir ++ "/" ++ plugin_name ++ "_" ++ rec_start
  let dirs1 := if im_dir ∈ st.dirs then st.dirs else im_dir :: st.dirs
  let st1 : JobState := { st with dirs := dirs1, output := im_dir }
  match (globbed.filter fun f => accepted_extensions.contains (splitext_ext f)).head? with
  | none => Except.error "IndexError: list index out of range"
  | some _distorted_video_loc =>
      let task : TaskModel :=
        { name := plugin_name ++ " Video Export", fetched := [], canceled := false }
      Except.ok ({ st1 with export_tasks := st1.export_tasks ++ [("taskname", task)] }, im_dir)

/-- One iteration of the `for task_name, task in self.export_tasks` body of
`VideoExporter.recent_events` (lines 222-229), acting on the observable pair
`(self.status, self.progress)`. -/
def recent_events_step (state : String × ℚ) (task : TaskModel) : String × ℚ :=
  -- lines 223-225: `recent = [d for d in task.fetch()]; if recent: ... = recent[-1]`
  let state1 := match task.fetched.getLast? with
    | some ev => ev
    | none => state
  -- lines 226-229: `if task.canceled: ...`
  if task.canceled then ("Export has been canceled", 0) else state1

/-- Embedding of `VideoExporter.recent_events` (lines 221-229): fold the
per-task update over the tracked task list. -/
def recent_events (tasks : List (String × TaskModel)) (state : String × ℚ) :
    String × ℚ :=
  tasks.foldl (fun s nt => recent_events_step s nt.2) state

/-! ## Basic lemmas about the loop -/

lemma pyTrunc_zero : pyTrunc 0 = 0 := by norm_num [pyTrunc]

lemma export_loop_eos {timestamps : List ℚ} {f t pos : Nat} {st : Option ℚ} {nu : Nat}
    (h : ¬ pos < timestamps.length) :
    export_loop timestamps f t pos st nu = ⟨[], [], false⟩ := by
  rw [export_loop, dif_neg h]

lemma export_loop_break {timestamps : List ℚ} {f t pos : Nat} {st : Option ℚ} {nu : Nat}
    (h : pos < timestamps.length) (hb : t < pos) :
    export_loop timestamps f t pos st nu = ⟨[], [], false⟩ := by
  rw [export_loop, dif_pos h, if_pos hb]

lemma export_loop_st (timestamps : List ℚ) (f t pos : Nat) (st : Option ℚ) (nu : Nat)
    (h : pos < timestamps.length) (hb : ¬ t < pos) :
    export_loop timestamps f t pos st nu =
      { events := (if nu ≤ pos then
            [("Converting video", progress_percent f t pos)]
          else []) ++
            (export_loop timestamps f t (pos + 1)
              (some (st.getD (timestamps.get ⟨pos, h⟩)))
              (if nu ≤ pos then nu + update_rate else nu)).events
        pts := pyTrunc ((timestamps.get ⟨pos, h⟩ - st.getD (timestamps.get ⟨pos, h⟩))
              / time_base) ::
            (export_loop timestamps f t (pos + 1)
              (some (st.getD (timestamps.get ⟨pos, h⟩)))
              (if nu ≤ pos then nu + update_rate else nu)).pts
        div_zero_hit := (if nu ≤ pos ∧ t = f then true else false) ||
            (export_loop timestamps f t (pos + 1)
              (some (st.getD (timestamps.get ⟨pos, h⟩)))
              (if nu ≤ pos then nu + update_rate else nu)).div_zero_hit } := by
  rw [export_loop, dif_pos h, if_neg hb]

/-- With the origin already fixed, the loop encodes exactly the frames at
indices `pos, pos+1, ...` up to `min export_to_index (length - 1)`, with
the pts of line 87 for each of them. -/
lemma export_loop_pts_some (timestamps : List ℚ) (f t : Nat) (o : ℚ) :
    ∀ pos nu, (export_loop timestamps f t pos (some o) nu).pts
      = (List.range' pos (min (t + 1) timestamps.length - pos)).map
          (fun i => pyTrunc ((timestamps.getD i 0 - o) / time_base)) := by
  have key : ∀ fuel pos nu, timestamps.length - pos ≤ fuel →
      (export_loop timestamps f t pos (some o) nu).pts
        = (List.range' pos (min (t + 1) timestamps.length - pos)).map
            (fun i => pyTrunc ((timestamps.getD i 0 - o) / time_base)) := by
    intro fuel
    induction fuel with
    | zero =>
      intro pos nu hle
      have hpos : ¬ pos < timestamps.length := by omega
      rw [export_loop_eos hpos]
      have hz : min (t + 1) timestamps.length - pos = 0 := by omega
      rw [hz]
      rfl
    | succ k ih =>
      intro pos nu hle
      by_cases hpos : pos < timestamps.length
      · by_cases hbreak : t < pos
        · rw [export_loop_break hpos hbreak]
          have hz : min (t + 1) timestamps.length - pos = 0 := by omega
          rw [hz]
          rfl
        · rw [export_loop_st timestamps f t pos (some o) nu hpos hbreak]
          simp only [Option.getD_some]
          rw [ih (pos + 1) (if nu ≤ pos then nu + update_rate else nu) (by omega)]
          have hcnt : min (t + 1) timestamps.length - pos
              = (min (t + 1) timestamps.length - (pos + 1)) + 1 := by omega
          rw [hcnt]
          have hrange : List.range' pos ((min (t + 1) timestamps.length - (pos + 1)) + 1)
              = pos :: List.range' (pos + 1) (min (t + 1) timestamps.length - (pos + 1)) :=
            rfl
          rw [hrange, List.map_cons]
          simp [List.getElem?_eq_getElem hpos]
      · rw [export_loop_eos hpos]
        have hz : min (t + 1) timestamps.length - pos = 0 := by omega
        rw [hz]
        rfl
  intro pos nu
  exact key (timestamps.length - pos) pos nu le_rfl

/-- Starting with `start_time = None`, the origin becomes the first retrieved
frame's timestamp. -/
lemma export_loop_pts_none (timestamps : List ℚ) (f t pos nu : Nat)
    (hpos : pos < timestamps.length) (hle : pos ≤ t) :
    (export_loop timestamps f t pos none nu).pts
      = (List.range' pos (min (t + 1) timestamps.length - pos)).map
          (fun i => pyTrunc ((timestamps.getD i 0 - timestamps.getD pos 0) / time_base)) := by
  have hbreak : ¬ t < pos := by omega
  rw [export_loop_st timestamps f t pos none nu hpos hbreak]
  simp only [Option.getD_none]
  rw [export_loop_pts_some timestamps f t (timestamps.get ⟨pos, hpos⟩) (pos + 1)]
  have hcnt : min (t + 1) timestamps.length - pos
      = (min (t + 1) timestamps.length - (pos + 1)) + 1 := by omega
  rw [hcnt]
  have hrange : List.range' pos ((min (t + 1) timestamps.length - (pos + 1)) + 1)
      = pos :: List.range' (pos + 1) (min (t + 1) timestamps.length - (pos + 1)) := rfl
  rw [hrange, List.map_cons]
  simp [List.getElem?_eq_getElem hpos]

/-! ## Claims C1-C4 -/

lemma export_processed_h264_true_pts (timestamps : List ℚ) (f t : Nat) :
    (export_processed_h264 true timestamps f t).pts
      = (export_loop timestamps f t f none (f + update_rate)).pts := rfl

/-- C1: when the source initialises, the resolved range satisfies
`export_from_index ≤ export_to_index`, and the source holds frames for every
index up to `export_to_index` (no early end-of-stream), the pipeline encodes
exactly `export_to_index - export_from_index + 1` frames: the loop stops only
on end-of-stream or on a frame index strictly greater than `export_to_index`,
so the frame at `export_to_index` itself is encoded. -/
theorem export_encodes_inclusive_range (timestamps : List ℚ)
    (export_from_index export_to_index : Nat)
    (h1 : export_from_index ≤ export_to_index)
    (h2 : export_to_index < timestamps.length) :
    (export_processed_h264 true timestamps export_from_index export_to_index).pts.length
      = export_to_index - export_from_index + 1 := by
  have hf : export_from_index < timestamps.length := lt_of_le_of_lt h1 h2
  rw [export_processed_h264_true_pts,
    export_loop_pts_none timestamps export_from_index export_to_index export_from_index
      (export_from_index + update_rate) hf h1,
    List.length_map, List.length_range']
  omega

/-- Witness for C1 on a concrete three-frame source with the full range. -/
theorem export_encodes_inclusive_range_spot :
    (0 : Nat) ≤ 2 ∧ 2 < ([0, 1, 2] : List ℚ).length ∧
      (export_processed_h264 true [0, 1, 2] 0 2).pts.length = 2 - 0 + 1 :=
  ⟨by norm_num, by norm_num,
    export_encodes_inclusive_range [0, 1, 2] 0 2 (by norm_num) (by norm_num)⟩

/-- C2: whenever at least one frame is retrieved inside the range, the first
encoded frame's presentation timestamp is exactly 0, for every source
timestamp sequence and every offset of the range into it: the first frame's
timestamp is captured as the origin and subtracted from itself. -/
theorem export_first_pts_zero (timestamps : List ℚ) (f t : Nat)
    (h1 : f ≤ t) (h2 : f < timestamps.length) :
    (export_processed_h264 true timestamps f t).pts.head? = some 0 := by
  rw [export_processed_h264_true_pts,
    export_loop_pts_none timestamps f t f (f + update_rate) h2 h1]
  have hcnt : min (t + 1) timestamps.length - f
      = (min (t + 1) timestamps.length - (f + 1)) + 1 := by omega
  rw [hcnt]
  have hrange : List.range' f ((min (t + 1) timestamps.length - (f + 1)) + 1)
      = f :: List.range' (f + 1) (min (t + 1) timestamps.length - (f + 1)) := rfl
  rw [hrange, List.map_cons, List.head?_cons]
  have hz : timestamps.getD f 0 - timestamps.getD f 0 = 0 := sub_self _
  rw [hz, zero_div, pyTrunc_zero]

/-- Witness for C2 with a range offset into the middle of the recording and
nonzero timestamps. -/
theorem export_first_pts_zero_spot :
    (1 : Nat) ≤ 2 ∧ 1 < ([3, 7, 9] : List ℚ).length ∧
      (export_processed_h264 true [3, 7, 9] 1 2).pts.head? = some 0 :=
  ⟨by norm_num, by norm_num, export_first_pts_zero [3, 7, 9] 1 2 (by norm_num) (by norm_num)⟩

/-- C3: the stream is opened at the fixed time base 1/65535 (independent of
the source frame rate, `time_base` being a closed constant), and every
encoded frame's presentation timestamp is (frame.timestamp − origin) divided
by that time base, truncated toward zero to an integer tick count, where the
origin is the first in-range frame's timestamp. -/
theorem export_pts_matches_spec (timestamps : List ℚ) (f t : Nat)
    (h1 : f ≤ t) (h2 : t < timestamps.length) :
    time_base = 1 / 65535 ∧
      (export_processed_h264 true timestamps f t).pts
        = (List.range' f (t - f + 1)).map
            (fun i => spec_output_pts (timestamps.getD i 0) (timestamps.getD f 0)) := by
  refine ⟨rfl, ?_⟩
  have hf : f < timestamps.length := lt_of_le_of_lt h1 h2
  rw [export_processed_h264_true_pts,
    export_loop_pts_none timestamps f t f (f + update_rate) hf h1]
  have hcnt : min (t + 1) timestamps.length - f = t - f + 1 := by omega
  rw [hcnt]
  rfl

/-- Witness for C3 on a concrete two-frame source. -/
theorem export_pts_matches_spec_spot :
    (0 : Nat) ≤ 1 ∧ 1 < ([5, 6] : List ℚ).length ∧
      (time_base = 1 / 65535 ∧
        (export_processed_h264 true [5, 6] 0 1).pts
          = (List.range' 0 (1 - 0 + 1)).map
              (fun i => spec_output_pts (([5, 6] : List ℚ).getD i 0)
                (([5, 6] : List ℚ).getD 0 0))) :=
  ⟨by norm_num, by norm_num, export_pts_matches_spec [5, 6] 0 1 (by norm_num) (by norm_num)⟩

/-- C4: when the source adapter fails to initialise, the run yields the
liveness event and then a terminal failure event at percent 0, encodes
nothing, and communicates the failure only through the event stream (the
embedding returns normally; in particular the progress expression is never
evaluated, `div_zero_hit = false`). -/
theorem export_init_failure_reports (timestamps : List ℚ) (f t : Nat) :
    export_processed_h264 false timestamps f t
      = { events := [("Converting video", 1 / 10), ("Converting scene video failed", 0)]
          pts := []
          div_zero_hit := false } := rfl

/-! ## Progress-event lemmas -/

lemma progress_percent_mono (f t p q : Nat) (hft : f < t) (hpq : p ≤ q) :
    progress_percent f t p ≤ progress_percent f t q := by
  unfold progress_percent
  have hd : (0 : ℚ) < (t : ℚ) - (f : ℚ) := by
    have : (f : ℚ) < (t : ℚ) := by exact_mod_cast hft
    linarith
  have hnum : ((p : ℚ) - (f : ℚ)) ≤ ((q : ℚ) - (f : ℚ)) := by
    have : (p : ℚ) ≤ (q : ℚ) := by exact_mod_cast hpq
    linarith
  have hdiv : ((p : ℚ) - (f : ℚ)) / ((t : ℚ) - (f : ℚ))
      ≤ ((q : ℚ) - (f : ℚ)) / ((t : ℚ) - (f : ℚ)) := by
    exact div_le_div_of_nonneg_right hnum hd.le
  linarith

lemma progress_percent_bounds (f t p : Nat) (hft : f < t) (hfp : f ≤ p) (hpt : p ≤ t) :
    10 ≤ progress_percent f t p ∧ progress_percent f t p ≤ 100 := by
  unfold progress_percent
  have hd : (0 : ℚ) < (t : ℚ) - (f : ℚ) := by
    have : (f : ℚ) < (t : ℚ) := by exact_mod_cast hft
    linarith
  have h0 : (0 : ℚ) ≤ ((p : ℚ) - (f : ℚ)) / ((t : ℚ) - (f : ℚ)) := by
    apply div_nonneg _ hd.le
    have : (f : ℚ) ≤ (p : ℚ) := by exact_mod_cast hfp
    linarith
  have h1 : ((p : ℚ) - (f : ℚ)) / ((t : ℚ) - (f : ℚ)) ≤ 1 := by
    rw [div_le_one hd]
    have : (p : ℚ) ≤ (t : ℚ) := by exact_mod_cast hpt
    linarith
  constructor <;> nlinarith

/-- Every event the loop yields is a throttled progress event whose position
`p` (the `current_frame_idx` at emission) satisfies `next_update_idx ≤ p ≤
export_to_index`. -/
lemma export_loop_events_mem (timestamps : List ℚ) (f t : Nat) :
    ∀ pos (st : Option ℚ) nu, f + update_rate ≤ nu →
      ∀ e ∈ (export_loop timestamps f t pos st nu).events,
        ∃ p, e = ("Converting video", progress_percent f t p) ∧ nu ≤ p ∧ p ≤ t := by
  have key : ∀ fuel pos (st : Option ℚ) nu, timestamps.length - pos ≤ fuel →
      f + update_rate ≤ nu →
      ∀ e ∈ (export_loop timestamps f t pos st nu).events,
        ∃ p, e = ("Converting video", progress_percent f t p) ∧ nu ≤ p ∧ p ≤ t := by
    intro fuel
    induction fuel with
    | zero =>
      intro pos st nu hle hnu e he
      rw [export_loop_eos (by omega)] at he
      simp at he
    | succ k ih =>
      intro pos st nu hle hnu e he
      have hu : update_rate = 10 := rfl
      by_cases hpos : pos < timestamps.length
      · by_cases hbreak : t < pos
        · rw [export_loop_break hpos hbreak] at he
          simp at he
        · rw [export_loop_st timestamps f t pos st nu hpos hbreak] at he
          simp only [List.mem_append] at he
          rcases he with he | he
          · by_cases hf : nu ≤ pos
            · rw [if_pos hf] at he
              simp only [List.mem_singleton] at he
              exact ⟨pos, he, hf, by omega⟩
            · rw [if_neg hf] at he
              simp at he
          · by_cases hf : nu ≤ pos
            · rw [if_pos hf] at he
              obtain ⟨p, hep, hnp, hpt⟩ :=
                ih (pos + 1) _ (nu + update_rate) (by omega) (by omega) e he
              exact ⟨p, hep, by omega, hpt⟩
            · rw [if_neg hf] at he
              exact ih (pos + 1) _ nu (by omega) hnu e he
      · rw [export_loop_eos hpos] at he
        simp at he
  intro pos st nu hnu e he
  exact key (timestamps.length - pos) pos st nu le_rfl hnu e he

/-- The percent values of the loop's events are non-decreasing: the invariant
`pos ≤ next_update_idx` holds throughout, so an event fires exactly at
`pos = next_update_idx` and later events fire at strictly larger indices. -/
lemma export_loop_events_chain (timestamps : List ℚ) (f t : Nat) :
    ∀ pos (st : Option ℚ) nu, pos ≤ nu → f + update_rate ≤ nu →
      List.Chain' (fun a b : String × ℚ => a.2 ≤ b.2)
        (export_loop timestamps f t pos st nu).events := by
  have key : ∀ fuel pos (st : Option ℚ) nu, timestamps.length - pos ≤ fuel →
      pos ≤ nu → f + update_rate ≤ nu →
      List.Chain' (fun a b : String × ℚ => a.2 ≤ b.2)
        (export_loop timestamps f t pos st nu).events := by
    intro fuel
    induction fuel with
    | zero =>
      intro pos st nu hle hpn hnu
      rw [export_loop_eos (by omega)]
      exact List.chain'_nil
    | succ k ih =>
      intro pos st nu hle hpn hnu
      have hu : update_rate = 10 := rfl
      by_cases hpos : pos < timestamps.length
      swap
      · rw [export_loop_eos hpos]
        exact List.chain'_nil
      by_cases hbreak : t < pos
      · rw [export_loop_break hpos hbreak]
        exact List.chain'_nil
      rw [export_loop_st timestamps f t pos st nu hpos hbreak]
      by_cases hf : nu ≤ pos
      · simp only [if_pos hf, List.singleton_append]
        apply List.chain'_cons'.mpr
        constructor
        · intro y hy
          have hmem := List.mem_of_mem_head? hy
          obtain ⟨p, hep, hnp, hpt⟩ := export_loop_events_mem timestamps f t
            (pos + 1) _ (nu + update_rate) (by omega) y hmem
          rw [hep]
          have hu : update_rate = 10 := rfl
          have hft : f < t := by omega
          exact progress_percent_mono f t pos p hft (by omega)
        · exact ih (pos + 1) _ (nu + update_rate) (by omega) (by omega) (by omega)
      · simp only [if_neg hf, List.nil_append]
        exact ih (pos + 1) _ nu (by omega) (by omega) hnu
  intro pos st nu hpn hnu
  exact key (timestamps.length - pos) pos st nu le_rfl hpn hnu

lemma export_processed_h264_true_events (timestamps : List ℚ) (f t : Nat) :
    (export_processed_h264 true timestamps f t).events
      = ("Converting video", 1 / 10)
          :: ((export_loop timestamps f t f none (f + update_rate)).events
            ++ [("Converting video completed", 100)]) := rfl

/-! ## Claims C5, C6, C9 -/

/-- Counterexample to C5 as stated: on an initialisation failure the liveness
event at percent 0.1 is followed by the failure event at percent 0, so the
percent sequence of the whole run decreases. -/
theorem export_failure_percent_decreases :
    ¬ List.Chain' (fun a b : String × ℚ => a.2 ≤ b.2)
        (export_processed_h264 false [] 0 0).events := by
  intro h
  rw [export_init_failure_reports] at h
  have h01 := List.chain'_cons.mp h
  have := h01.1
  norm_num at this

/-- C5 (amended): on every run in which the source adapter initialises, the
percent values of the emitted events (initial liveness event, throttled
in-loop events, final completion event) are monotonically non-decreasing,
and the final event on natural completion is exactly 100. -/
theorem export_success_percent_monotone (timestamps : List ℚ) (f t : Nat) :
    List.Chain' (fun a b : String × ℚ => a.2 ≤ b.2)
        (export_processed_h264 true timestamps f t).events ∧
      (export_processed_h264 true timestamps f t).events.getLast?
        = some ("Converting video completed", 100) := by
  rw [export_processed_h264_true_events]
  have hu : update_rate = 10 := rfl
  constructor
  · rw [show ("Converting video", (1 : ℚ) / 10)
          :: ((export_loop timestamps f t f none (f + update_rate)).events
            ++ [("Converting video completed", (100 : ℚ))])
        = (("Converting video", (1 : ℚ) / 10)
            :: (export_loop timestamps f t f none (f + update_rate)).events)
          ++ [("Converting video completed", (100 : ℚ))] from rfl]
    apply List.chain'_append.mpr
    refine ⟨?_, List.chain'_singleton _, ?_⟩
    · apply List.chain'_cons'.mpr
      constructor
      · intro y hy
        obtain ⟨p, hep, hnp, hpt⟩ := export_loop_events_mem timestamps f t
          f none (f + update_rate) le_rfl y (List.mem_of_mem_head? hy)
        rw [hep]
        have hft : f < t := by omega
        have hb := progress_percent_bounds f t p hft (by omega) hpt
        have : (1 : ℚ) / 10 ≤ 10 := by norm_num
        exact this.trans hb.1
      · exact export_loop_events_chain timestamps f t f none (f + update_rate)
          (by omega) le_rfl
    · intro x hx y hy
      simp only [List.head?_cons, Option.mem_def, Option.some.injEq] at hy
      subst hy
      rcases List.mem_getLast?_eq_getLast hx with ⟨hne, hxl⟩
      have hxm : x ∈ ("Converting video", (1 : ℚ) / 10)
          :: (export_loop timestamps f t f none (f + update_rate)).events := by
        rw [hxl]
        exact List.getLast_mem hne
      rcases List.mem_cons.mp hxm with hx0 | hxL
      · rw [hx0]
        norm_num
      · obtain ⟨p, hep, hnp, hpt⟩ := export_loop_events_mem timestamps f t
          f none (f + update_rate) le_rfl x hxL
        rw [hep]
        have hft : f < t := by omega
        exact (progress_percent_bounds f t p hft (by omega) hpt).2
  · rw [show ("Converting video", (1 : ℚ) / 10)
          :: ((export_loop timestamps f t f none (f + update_rate)).events
            ++ [("Converting video completed", (100 : ℚ))])
        = (("Converting video", (1 : ℚ) / 10)
            :: (export_loop timestamps f t f none (f + update_rate)).events)
          ++ [("Converting video completed", (100 : ℚ))] from rfl]
    exact List.getLast?_concat _

/-- C6: every event emitted by any run of the pipeline carries a percent in
[0, 100]; in particular the throttled in-loop events, rescaled by 0.9 and
offset by 0.1 before the multiplication by 100, never exceed 100 for any
range and any reachable `current_frame_idx`. -/
theorem export_percent_in_unit_range (initialised : Bool) (timestamps : List ℚ)
    (f t : Nat) :
    ∀ e ∈ (export_processed_h264 initialised timestamps f t).events,
      0 ≤ e.2 ∧ e.2 ≤ 100 := by
  intro e he
  cases initialised with
  | false =>
    rw [export_init_failure_reports] at he
    rcases List.mem_cons.mp he with he | he
    · rw [he]; norm_num
    · rcases List.mem_cons.mp he with he | he
      · rw [he]; norm_num
      · simp at he
  | true =>
    rw [export_processed_h264_true_events] at he
    rcases List.mem_cons.mp he with he | he
    · rw [he]; norm_num
    · rcases List.mem_append.mp he with he | he
      · obtain ⟨p, hep, hnp, hpt⟩ := export_loop_events_mem timestamps f t
          f none (f + update_rate) le_rfl e he
        have hu : update_rate = 10 := rfl
        have hft : f < t := by omega
        have hb := progress_percent_bounds f t p hft (by omega) hpt
        rw [hep]
        constructor
        · have : (0 : ℚ) ≤ 10 := by norm_num
          exact this.trans hb.1
        · exact hb.2
      · rcases List.mem_singleton.mp he with he
        rw [he]; norm_num

/-- Witness for C6 at the failure event of an initialisation-failure run. -/
theorem export_percent_in_unit_range_spot :
    (("Converting scene video failed", (0 : ℚ))
        ∈ (export_processed_h264 false [] 0 0).events)
      ∧ (0 ≤ (0 : ℚ) ∧ (0 : ℚ) ≤ 100) :=
  ⟨by rw [export_init_failure_reports]; simp,
    export_percent_in_unit_range false [] 0 0 ("Converting scene video failed", (0 : ℚ))
      (by rw [export_init_failure_reports]; simp)⟩

/-- The loop never evaluates the progress expression of lines 94-97 with a
zero denominator: an update fires only at `current_frame_idx ≥
next_update_idx ≥ export_from_index + update_rate` while the loop only
processes frames with index at most `export_to_index`. -/
lemma export_loop_no_div_zero (timestamps : List ℚ) (f t : Nat) :
    ∀ pos (st : Option ℚ) nu, f + update_rate ≤ nu →
      (export_loop timestamps f t pos st nu).div_zero_hit = false := by
  have key : ∀ fuel pos (st : Option ℚ) nu, timestamps.length - pos ≤ fuel →
      f + update_rate ≤ nu →
      (export_loop timestamps f t pos st nu).div_zero_hit = false := by
    intro fuel
    induction fuel with
    | zero =>
      intro pos st nu hle hnu
      rw [export_loop_eos (by omega)]
    | succ k ih =>
      intro pos st nu hle hnu
      have hu : update_rate = 10 := rfl
      by_cases hpos : pos < timestamps.length
      swap
      · rw [export_loop_eos hpos]
      by_cases hbreak : t < pos
      · rw [export_loop_break hpos hbreak]
      rw [export_loop_st timestamps f t pos st nu hpos hbreak]
      have hcond : ¬ (nu ≤ pos ∧ t = f) := by
        rintro ⟨hc1, hc2⟩
        omega
      by_cases hf : nu ≤ pos
      · simp only [if_neg hcond, Bool.false_or, if_pos hf]
        exact ih (pos + 1) _ (nu + update_rate) (by omega) (by omega)
      · simp only [if_neg hcond, Bool.false_or, if_neg hf]
        exact ih (pos + 1) _ nu (by omega) hnu
  intro pos st nu hnu
  exact key (timestamps.length - pos) pos st nu le_rfl hnu

/-- C9: no run of the pipeline ever evaluates the in-loop progress expression
with denominator `export_to_index - export_from_index = 0`: a single-frame
range never reaches the division, and in general the update fires only once
`current_frame_idx ≥ export_from_index + update_rate`, which forces
`export_to_index ≥ export_from_index + update_rate`. -/
theorem export_no_division_by_zero (initialised : Bool) (timestamps : List ℚ)
    (f t : Nat) :
    (export_processed_h264 initialised timestamps f t).div_zero_hit = false := by
  cases initialised with
  | false => rfl
  | true => exact export_loop_no_div_zero timestamps f t f none (f + update_rate) le_rfl

/-! ## Claims C7, C8, C10 -/

/-- Counterexample to C7 as stated: on a recording directory with zero
matching source files, `add_export_job` does not produce a failure Progress
Event — the list indexing `[...][0]` of line 202 raises an uncaught
`IndexError`, so the call has no successful outcome at all. -/
theorem add_export_job_empty_glob_faults :
    add_export_job ⟨[], [], "Not set yet"⟩ [] "/exports" "iMotions"
        "2017_10_10_10_00_00" "scene"
      = Except.error "IndexError: list index out of range" ∧
    (add_export_job ⟨[], [], "Not set yet"⟩ [] "/exports" "iMotions"
        "2017_10_10_10_00_00" "scene").toOption = none :=
  ⟨rfl, rfl⟩

/-- C7 (amended): whenever no file in the recording directory matches the
input base name with an accepted container extension, `add_export_job`
raises an uncaught `IndexError` (an unhandled fault); no Progress Event and
no task are produced. -/
theorem add_export_job_no_match_raises (st : JobState) (globbed : List String)
    (export_dir plugin_name rec_start output_name : String)
    (h : globbed.filter (fun f => accepted_extensions.contains (splitext_ext f)) = []) :
    add_export_job st globbed export_dir plugin_name rec_start output_name
      = Except.error "IndexError: list index out of range" := by
  rw [add_export_job, h]
  rfl

/-- Witness for C7 (amended): a directory listing holding only a
non-container file. -/
theorem add_export_job_no_match_raises_spot :
    (["/rec/world.txt"].filter
        (fun f => accepted_extensions.contains (splitext_ext f)) = []) ∧
      add_export_job ⟨[], [], "Not set yet"⟩ ["/rec/world.txt"] "/exports"
          "iMotions" "2017_10_10_10_00_00" "scene"
        = Except.error "IndexError: list index out of range" :=
  ⟨rfl, add_export_job_no_match_raises ⟨[], [], "Not set yet"⟩ ["/rec/world.txt"]
    "/exports" "iMotions" "2017_10_10_10_00_00" "scene" rfl⟩

/-- Counterexample to C8 as stated: a call on a directory with zero matching
source files registers no background task and returns nothing — it raises
`IndexError` — even though the destination directory creation itself
succeeded; so not every call registers a task and returns the path. -/
theorem add_export_job_empty_glob_no_task :
    add_export_job ⟨["/exports/iMotions_2017_10_10_10_00_00"], [], "Not set yet"⟩
        [] "/exports" "iMotions" "2017_10_10_10_00_00" "scene"
      = Except.error "IndexError: list index out of range" ∧
    (add_export_job ⟨["/exports/iMotions_2017_10_10_10_00_00"], [], "Not set yet"⟩
        [] "/exports" "iMotions" "2017_10_10_10_00_00" "scene").toOption = none :=
  ⟨rfl, rfl⟩

/-- C8 (amended): for every call to `add_export_job` in which at least one
file matches the input base name with an accepted container extension, the
destination subdirectory is created idempotently (a pre-existing directory is
not an error and the call still succeeds), a background task is appended to
the task list — freshly created, having produced nothing yet — and the call
returns the destination directory path immediately. -/
theorem add_export_job_registers_task (st : JobState) (globbed : List String)
    (export_dir plugin_name rec_start output_name : String)
    (h : globbed.filter (fun f => accepted_extensions.contains (splitext_ext f)) ≠ []) :
    ∃ st' : JobState,
      add_export_job st globbed export_dir plugin_name rec_start output_name
          = Except.ok (st', export_dir ++ "/" ++ plugin_name ++ "_" ++ rec_start) ∧
        st'.export_tasks = st.export_tasks
          ++ [("taskname", ⟨plugin_name ++ " Video Export", [], false⟩)] ∧
        (export_dir ++ "/" ++ plugin_name ++ "_" ++ rec_start) ∈ st'.dirs ∧
        ((export_dir ++ "/" ++ plugin_name ++ "_" ++ rec_start) ∈ st.dirs →
          st'.dirs = st.dirs) := by
  obtain ⟨x, l, hxl⟩ : ∃ x l,
      globbed.filter (fun f => accepted_extensions.contains (splitext_ext f))
        = x :: l := by
    cases hc : globbed.filter (fun f => accepted_extensions.contains (splitext_ext f)) with
    | nil => exact absurd hc h
    | cons x l => exact ⟨x, l, rfl⟩
  refine ⟨⟨(if (export_dir ++ "/" ++ plugin_name ++ "_" ++ rec_start) ∈ st.dirs
        then st.dirs
        else (export_dir ++ "/" ++ plugin_name ++ "_" ++ rec_start) :: st.dirs),
      st.export_tasks ++ [("taskname", ⟨plugin_name ++ " Video Export", [], false⟩)],
      export_dir ++ "/" ++ plugin_name ++ "_" ++ rec_start⟩, ?_, rfl, ?_, ?_⟩
  · rw [add_export_job, hxl]
    rfl
  · show (export_dir ++ "/" ++ plugin_name ++ "_" ++ rec_start)
      ∈ (if (export_dir ++ "/" ++ plugin_name ++ "_" ++ rec_start) ∈ st.dirs
        then st.dirs
        else (export_dir ++ "/" ++ plugin_name ++ "_" ++ rec_start) :: st.dirs)
    by_cases hd : (export_dir ++ "/" ++ plugin_name ++ "_" ++ rec_start) ∈ st.dirs
    · rw [if_pos hd]
      exact hd
    · rw [if_neg hd]
      exact List.mem_cons_self _ _
  · intro hd
    show (if (export_dir ++ "/" ++ plugin_name ++ "_" ++ rec_start) ∈ st.dirs
        then st.dirs
        else (export_dir ++ "/" ++ plugin_name ++ "_" ++ rec_start) :: st.dirs) = st.dirs
    rw [if_pos hd]

/-- Witness for C8 (amended): the destination directory already exists and a
matching `.mp4` file is present; the call still succeeds, leaves the
directory list unchanged and appends one fresh task. -/
theorem add_export_job_registers_task_spot :
    (["/rec/world.mp4"].filter
        (fun f => accepted_extensions.contains (splitext_ext f)) ≠ []) ∧
      ∃ st' : JobState,
        add_export_job ⟨["/exports/iMotions_2017_10_10_10_00_00"], [], "Not set yet"⟩
            ["/rec/world.mp4"] "/exports" "iMotions" "2017_10_10_10_00_00" "scene"
            = Except.ok (st', "/exports" ++ "/" ++ "iMotions" ++ "_"
              ++ "2017_10_10_10_00_00") ∧
          st'.export_tasks = ([] : List (String × TaskModel))
            ++ [("taskname", ⟨"iMotions" ++ " Video Export", [], false⟩)] ∧
          ("/exports" ++ "/" ++ "iMotions" ++ "_" ++ "2017_10_10_10_00_00")
            ∈ st'.dirs ∧
          (("/exports" ++ "/" ++ "iMotions" ++ "_" ++ "2017_10_10_10_00_00")
              ∈ ["/exports/iMotions_2017_10_10_10_00_00"] →
            st'.dirs = ["/exports/iMotions_2017_10_10_10_00_00"]) :=
  ⟨by decide, add_export_job_registers_task
    ⟨["/exports/iMotions_2017_10_10_10_00_00"], [], "Not set yet"⟩
    ["/rec/world.mp4"] "/exports" "iMotions" "2017_10_10_10_00_00" "scene" (by decide)⟩

/-- C10: a `recent_events` call in which every tracked task fetches no new
events and is not canceled leaves `(self.status, self.progress)` unchanged;
the pair is overwritten only by the last fetched event of a task that did
produce events, or by the cancellation message with progress 0 when a task
is canceled. -/
theorem recent_events_preserves_state (tasks : List (String × TaskModel))
    (state : String × ℚ)
    (h : ∀ nt ∈ tasks, nt.2.fetched = [] ∧ nt.2.canceled = false) :
    recent_events tasks state = state ∧
      (∀ (s : String × ℚ) (task : TaskModel) ev, task.canceled = false →
        task.fetched.getLast? = some ev → recent_events_step s task = ev) ∧
      (∀ (s : String × ℚ) (task : TaskModel), task.canceled = true →
        recent_events_step s task = ("Export has been canceled", 0)) := by
  refine ⟨?_, ?_, ?_⟩
  · revert h
    induction tasks with
    | nil =>
      intro h
      rfl
    | cons hd tl ih =>
      intro h
      have hhd := h hd (List.mem_cons_self hd tl)
      have hstep : recent_events_step state hd.2 = state := by
        simp [recent_events_step, hhd.1, hhd.2]
      calc recent_events (hd :: tl) state
          = recent_events tl (recent_events_step state hd.2) := rfl
        _ = recent_events tl state := by rw [hstep]
        _ = state := ih (fun nt hnt => h nt (List.mem_cons_of_mem hd hnt))
  · intro s task ev hc hl
    simp [recent_events_step, hl, hc]
  · intro s task hc
    simp [recent_events_step, hc]

/-- Witness for C10 on one idle, not-canceled task. -/
theorem recent_events_preserves_state_spot :
    (∀ nt ∈ [("taskname", (⟨"iMotions Video Export", [], false⟩ : TaskModel))],
        nt.2.fetched = [] ∧ nt.2.canceled = false) ∧
      (recent_events [("taskname", ⟨"iMotions Video Export", [], false⟩)]
            ("Not exporting", 0) = ("Not exporting", 0) ∧
        (∀ (s : String × ℚ) (task : TaskModel) ev, task.canceled = false →
          task.fetched.getLast? = some ev → recent_events_step s task = ev) ∧
        (∀ (s : String × ℚ) (task : TaskModel), task.canceled = true →
          recent_events_step s task = ("Export has been canceled", 0))) :=
  ⟨by simp, recent_events_preserves_state
    [("taskname", ⟨"iMotions Video Export", [], false⟩)] ("Not exporting", 0) (by simp)⟩
